import Mathlib

/-!
Verification development for `scripts/bootstrap-admin.js`: an admin-account
bootstrap that validates a username/password/email, derives a salted scrypt
credential, and upserts an admin record into a JSON user store.

The JavaScript source is shallowly embedded: JS strings become `String`
(operated on through their underlying `List Char`), JS/JSON values become the
inductive `JVal`, and the effectful `main` becomes the pure state-passing
function `mainRun` whose external inputs (file content, read failures,
`JSON.parse`, random salt bytes, the scrypt-derived key, the generated uuid,
the current time, and write/rename failures) are explicit parameters gathered
in a `World` structure.
-/

set_option autoImplicit false

namespace Bootstrap

/-- Code points treated as whitespace by JavaScript `String.prototype.trim`
and by the regex class `\s` (WhiteSpace plus LineTerminator). -/
def jsWsCodes : List Nat :=
  [9, 10, 11, 12, 13, 32, 160, 0x1680,
   0x2000, 0x2001, 0x2002, 0x2003, 0x2004, 0x2005, 0x2006, 0x2007,
   0x2008, 0x2009, 0x200a, 0x2028, 0x2029, 0x202f, 0x205f, 0x3000, 0xfeff]

/-- Whether a character is JS whitespace. -/
def jsIsWs (c : Char) : Bool := jsWsCodes.contains c.toNat

/-- JS `String.prototype.trim` on a character list: drop whitespace from both
ends. -/
def jsTrimL (l : List Char) : List Char :=
  ((l.dropWhile jsIsWs).reverse.dropWhile jsIsWs).reverse

/-- JS `String.prototype.toLowerCase`, restricted to the ASCII letters (the
only case-sensitive characters the validators accept). -/
def jsLowerChar (c : Char) : Char :=
  if c.toNat ≥ 65 ∧ c.toNat ≤ 90 then Char.ofNat (c.toNat + 32) else c

/-- Lowercasing over a character list. -/
def jsToLowerL (l : List Char) : List Char := l.map jsLowerChar

/-- Membership in the regex class `[a-zA-Z0-9_.-]` used for usernames. -/
def isUserChar (c : Char) : Bool :=
  (97 ≤ c.toNat ∧ c.toNat ≤ 122) ∨ (65 ≤ c.toNat ∧ c.toNat ≤ 90) ∨
  (48 ≤ c.toNat ∧ c.toNat ≤ 57) ∨ c = '_' ∨ c = '.' ∨ c = '-'

/-- Membership in the email local-part regex class
`[a-z0-9.!#$%&'*+/=?^_`{|}~-]` (apostrophe, backtick and braces written by
code point). -/
def isLocalChar (c : Char) : Bool :=
  (97 ≤ c.toNat ∧ c.toNat ≤ 122) ∨ (48 ≤ c.toNat ∧ c.toNat ≤ 57) ∨
  c = '.' ∨ c = '!' ∨ c = '#' ∨ c = '$' ∨ c = '%' ∨ c = '&' ∨
  c = '*' ∨ c = '+' ∨ c = '/' ∨ c = '=' ∨ c = '?' ∨ c = '^' ∨
  c = '_' ∨ c = '~' ∨ c = '-' ∨ c = '|' ∨
  c.toNat = 39 ∨ c.toNat = 96 ∨ c.toNat = 123 ∨ c.toNat = 125

/-- Membership in the email domain regex class `[a-z0-9.-]`. -/
def isDomainChar (c : Char) : Bool :=
  (97 ≤ c.toNat ∧ c.toNat ≤ 122) ∨ (48 ≤ c.toNat ∧ c.toNat ≤ 57) ∨
  c = '.' ∨ c = '-'

/-- JS `String.prototype.indexOf` for a single character: index of the first
occurrence, if any. -/
def idxOf? (c : Char) : List Char → Option Nat
  | [] => none
  | x :: xs => if x = c then some 0 else (idxOf? c xs).map (· + 1)

/-- Whether a character list contains two consecutive dots, as tested by
`domain.includes("..")`. -/
def hasDotDot : List Char → Bool
  | [] => false
  | [_] => false
  | a :: b :: rest => (a = '.' ∧ b = '.') ∨ hasDotDot (b :: rest)

/-- Embedding of `cleanUsername` (bootstrap-admin.js lines 27-32) over a
character list: trim, bound the length to [3,32], and require every character
to match `[a-zA-Z0-9_.-]`. -/
def cleanUsernameL (raw : List Char) : Option (List Char) :=
  if (jsTrimL raw).length < 3 ∨ 32 < (jsTrimL raw).length then none
  else if ¬ (jsTrimL raw ≠ [] ∧ (jsTrimL raw).all isUserChar) then none
  else some (jsTrimL raw)

/-- String-level `cleanUsername`. -/
def cleanUsername (raw : String) : Option String :=
  (cleanUsernameL raw.data).map String.mk

/-- Embedding of `normalizePassword` (lines 34-38): accept the raw value
unchanged when its length is within [8,256]. -/
def normalizePasswordL (raw : List Char) : Option (List Char) :=
  if raw.length < 8 ∨ 256 < raw.length then none else some raw

/-- String-level `normalizePassword`. -/
def normalizePassword (raw : String) : Option String :=
  (normalizePasswordL raw.data).map String.mk

/-- JS `String.prototype.indexOf` for a single character, with the `-1`
sentinel for "not found". -/
def jsIndexOf (c : Char) (l : List Char) : Int :=
  match idxOf? c l with
  | none => -1
  | some i => i

/-- Checks of `normalizeEmail` (lines 42-56) on the already trimmed and
lowercased character list `e`, in source order: emptiness, length,
whitespace, the position `at` of the first `@` (`at <= 0` also covers the
`-1` "no @" sentinel), local/domain lengths (the local part is
`e.take at`, the domain `e.drop (at + 1)`), a dot in the domain, the two
charset regexes, leading/trailing dot, consecutive dots. -/
def normalizeEmailCore (e : List Char) : Option (List Char) :=
  if e = [] then none
  else if 254 < e.length then none
  else if e.any jsIsWs then none
  else if jsIndexOf '@' e ≤ 0 then none
  else if jsIndexOf '@' e = (e.length : Int) - 1 then none
  else if 64 < (e.take (jsIndexOf '@' e).toNat).length then none
  else if (e.drop ((jsIndexOf '@' e).toNat + 1)).length < 3 then none
  else if ¬ (e.drop ((jsIndexOf '@' e).toNat + 1)).contains '.' then none
  else if ¬ (e.take (jsIndexOf '@' e).toNat).all isLocalChar then none
  else if ¬ (e.drop ((jsIndexOf '@' e).toNat + 1)).all isDomainChar then none
  else if (e.drop ((jsIndexOf '@' e).toNat + 1)).head? = some '.' ∨
          (e.drop ((jsIndexOf '@' e).toNat + 1)).getLast? = some '.' then none
  else if hasDotDot (e.drop ((jsIndexOf '@' e).toNat + 1)) then none
  else some e

/-- Embedding of `normalizeEmail` (lines 40-57): trim, lowercase, then apply
the structural checks. -/
def normalizeEmailL (raw : List Char) : Option (List Char) :=
  normalizeEmailCore (jsToLowerL (jsTrimL raw))

/-- String-level `normalizeEmail`. -/
def normalizeEmail (raw : String) : Option String :=
  (normalizeEmailL raw.data).map String.mk

/-- JavaScript/JSON values as manipulated by the script: `undefVal` models the
JS `undefined`, `jnum` models the (integral) numbers that appear in this
program, and objects are ordered field lists as in JS property order. -/
inductive JVal where
  | null
  | undefVal
  | jbool (b : Bool)
  | jnum (n : Int)
  | jstr (s : String)
  | jarr (elems : List JVal)
  | jobj (fields : List (String × JVal))
deriving Repr

/-- JS truthiness for the values of `JVal`. -/
def jsTruthy : JVal → Bool
  | .null => false
  | .undefVal => false
  | .jbool b => b
  | .jnum n => n ≠ 0
  | .jstr s => s ≠ ""
  | .jarr _ => true
  | .jobj _ => true

/-- Property read on an object field list: value of the first matching key,
`undefVal` when absent. -/
def getF : List (String × JVal) → String → JVal
  | [], _ => .undefVal
  | (k, v) :: rest, key => if k = key then v else getF rest key

/-- Property write on an object field list, as in JS assignment: replace the
first matching key in place, otherwise append the new property. -/
def setF : List (String × JVal) → String → JVal → List (String × JVal)
  | [], key, v => [(key, v)]
  | (k, w) :: rest, key, v =>
      if k = key then (key, v) :: rest else (k, w) :: setF rest key v

/-- JS property read `x.key`: fields on objects, `undefVal` on everything else
that the script can reach without throwing. -/
def jsGet (x : JVal) (key : String) : JVal :=
  match x with
  | .jobj fs => getF fs key
  | _ => .undefVal

/-- Model of `Array.isArray`. -/
def isArr : JVal → Bool
  | .jarr _ => true
  | _ => false

/-- Model of `typeof v === "number"`. -/
def isNum : JVal → Bool
  | .jnum _ => true
  | _ => false

/-- JS `String(n)` for the integral numbers of the model. -/
def intToJsString (n : Int) : String := toString n

mutual

/-- JS `String(v)` coercion on `JVal`: arrays join their elements with commas
(`Array.prototype.toString`), plain objects print as `[object Object]`. -/
def jsToString : JVal → String
  | .null => "null"
  | .undefVal => "undefined"
  | .jbool true => "true"
  | .jbool false => "false"
  | .jnum n => intToJsString n
  | .jstr s => s
  | .jarr xs => jsArrJoin xs
  | .jobj _ => "[object Object]"

/-- Array `toString`: elements coerced with `String(·)`, except `null` and
`undefined` which contribute the empty string, joined by commas. -/
def jsArrJoin : List JVal → String
  | [] => ""
  | [x] => jsElemString x
  | x :: y :: rest => jsElemString x ++ "," ++ jsArrJoin (y :: rest)
termination_by structural l => l

/-- A single array element under `Array.prototype.toString`: like `String(·)`
except that `null` and `undefined` contribute the empty string. -/
def jsElemString : JVal → String
  | .null => ""
  | .undefVal => ""
  | .jbool true => "true"
  | .jbool false => "false"
  | .jnum n => intToJsString n
  | .jstr s => s
  | .jarr xs => jsArrJoin xs
  | .jobj _ => "[object Object]"
termination_by structural v => v

end

/-- Hex digit characters `0-9a-f` as produced by `Buffer.toString("hex")`. -/
def hexDigitChar (n : Nat) : Char :=
  if n < 10 then Char.ofNat (48 + n) else Char.ofNat (87 + n)

/-- One byte as two lowercase hex characters. -/
def byteToHex (b : Nat) : List Char :=
  [hexDigitChar (b / 16 % 16), hexDigitChar (b % 16)]

/-- Hex encoding of a byte list as a character list. -/
def bytesToHexL (bs : List Nat) : List Char :=
  (bs.map byteToHex).flatten

/-- Model of `Buffer.prototype.toString("hex")` on a byte list. -/
def bytesToHex (bs : List Nat) : String :=
  String.mk (bytesToHexL bs)

/-- Whether a character is a lowercase hex digit. -/
def isHexDigit (c : Char) : Bool :=
  (48 ≤ c.toNat ∧ c.toNat ≤ 57) ∨ (97 ≤ c.toNat ∧ c.toNat ≤ 102)

/-- The predicate of `db.users.find((x) => String(x && x.username) === username)`
(line 89): when `x` is falsy, `x && x.username` short-circuits to `x` itself. -/
def findPred (username : String) (x : JVal) : Bool :=
  jsToString (if jsTruthy x then jsGet x "username" else x) == username

/-- Truthiness of the optional normalized email, as in `if (email)` /
`email || undefined`. -/
def emailTruthy : Option String → Bool
  | none => false
  | some e => e ≠ ""

/-- Field list of the fresh admin record built on the create path (lines
95-108), in source field order; an absent email is stored as `undefined`,
which JSON serialization drops. -/
def newRecordFields (username : String) (email : Option String)
    (saltHex passHashHex id now : String) : List (String × JVal) :=
  [("id", .jstr id),
   ("username", .jstr username),
   ("email", if emailTruthy email then .jstr (email.getD "") else .undefVal),
   ("role", .jstr "admin"),
   ("salt", .jstr saltHex),
   ("passHash", .jstr passHashHex),
   ("quota", .jnum (-1)),
   ("unlocked", .jarr []),
   ("contentTokens", .jarr []),
   ("disabled", .jbool false),
   ("accessUntilMs", .null),
   ("createdAt", .jstr now)]

/-- The fresh admin record as a JS object. -/
def newRecord (username : String) (email : Option String)
    (saltHex passHashHex id now : String) : JVal :=
  .jobj (newRecordFields username email saltHex passHashHex id now)

/-- The update path (lines 111-121) applied to the fields of the matched
record, one property write or guarded write per source line, in source
order. -/
def updateRec (fs : List (String × JVal)) (username : String)
    (email : Option String) (saltHex passHashHex now : String) :
    List (String × JVal) :=
  let o1 := setF fs "username" (.jstr username)
  let o2 := if emailTruthy email then setF o1 "email" (.jstr (email.getD "")) else o1
  let o3 := setF o2 "role" (.jstr "admin")
  let o4 := setF o3 "salt" (.jstr saltHex)
  let o5 := setF o4 "passHash" (.jstr passHashHex)
  let o6 := if isNum (getF o5 "quota") then o5 else setF o5 "quota" (.jnum (-1))
  let o7 := if isArr (getF o6 "unlocked") then o6 else setF o6 "unlocked" (.jarr [])
  let o8 := if isArr (getF o7 "contentTokens") then o7
            else setF o7 "contentTokens" (.jarr [])
  let o9 := setF o8 "disabled" (.jbool false)
  let o10 := setF o9 "accessUntilMs" .null
  if jsTruthy (getF o10 "createdAt") then o10 else setF o10 "createdAt" (.jstr now)

/-- Replace the first element satisfying `p` (the element `find` returned and
the script then mutated in place). -/
def replaceFirst (p : JVal → Bool) (v : JVal) : List JVal → List JVal
  | [] => []
  | x :: rest => if p x then v :: rest else x :: replaceFirst p v rest

/-- The find-or-create step on the users array (lines 89-122).  A falsy find
result is coerced to `null` by `|| null`, taking the create path.  A truthy
matched object is updated in place.  A truthy matched array accepts the
property writes, but named properties of an array are invisible to JSON
serialization, so the persisted element is unchanged.  A truthy matched
primitive makes the strict-mode property assignment `u.username = ...` throw,
which `main().catch` turns into a fatal exit. -/
def upsertUsers (users : List JVal) (username : String) (email : Option String)
    (saltHex passHashHex id now : String) : Except Unit (List JVal) :=
  match users.find? (findPred username) with
  | none => .ok (users ++ [newRecord username email saltHex passHashHex id now])
  | some u =>
    if jsTruthy u then
      match u with
      | .jobj fs =>
          .ok (replaceFirst (findPred username)
                (.jobj (updateRec fs username email saltHex passHashHex now)) users)
      | .jarr _ => .ok users
      | _ => .error ()
    else .ok (users ++ [newRecord username email saltHex passHashHex id now])

/-- The `users` array of the in-memory store object. -/
def usersOf (db : JVal) : List JVal :=
  match jsGet db "users" with
  | .jarr xs => xs
  | _ => []

/-- Store the mutated users array back in the store object (the script
mutates `db.users` in place, so every other top-level key is untouched). -/
def setUsers (db : JVal) (xs : List JVal) : JVal :=
  match db with
  | .jobj fs => .jobj (setF fs "users" (.jarr xs))
  | v => v

/-- Upsert on the whole store object. -/
def upsertDb (db : JVal) (username : String) (email : Option String)
    (saltHex passHashHex id now : String) : Except Unit JVal :=
  (upsertUsers (usersOf db) username email saltHex passHashHex id now).map
    (setUsers db)

/-- The empty collection `{ users: [] }` substituted on any load failure. -/
def emptyDb : JVal := .jobj [("users", .jarr [])]

/-- The recognized environment variables; `none` models an unset variable. -/
structure EnvVars where
  ADMIN_USER : Option String
  ADMIN_USERNAME : Option String
  ADMIN_PASS : Option String
  ADMIN_PASSWORD : Option String
  ADMIN_EMAIL : Option String

/-- JS `a || b` on an optional environment value: unset and the empty string
are both falsy. -/
def orDefault (a : Option String) (b : String) : String :=
  match a with
  | some s => if s = "" then b else s
  | none => b

/-- Resolution of `ADMIN_USER` (line 13): first truthy of the two variables,
coerced to a string and trimmed. -/
def envUser (env : EnvVars) : String :=
  String.mk (jsTrimL (orDefault env.ADMIN_USER
    (orDefault env.ADMIN_USERNAME "")).data)

/-- Resolution of `ADMIN_PASS` (line 14): first truthy of the two variables,
not trimmed. -/
def envPass (env : EnvVars) : String :=
  orDefault env.ADMIN_PASS (orDefault env.ADMIN_PASSWORD "")

/-- Resolution of `ADMIN_EMAIL` (line 15): the single variable, trimmed. -/
def envEmail (env : EnvVars) : String :=
  String.mk (jsTrimL (orDefault env.ADMIN_EMAIL "").data)

/-- Kinds of `readFile` failure other than success; the script's catch-all
never distinguishes them. -/
inductive ReadErrKind where
  | eacces
  | other
deriving Repr

/-- External inputs of one run: the backing file (content or absence), an
injected read failure, models of `JSON.parse` and `JSON.stringify`, the
random salt bytes, the scrypt outcome, the generated uuid, the current
ISO-8601 time, and injected persist failures. -/
structure World where
  disk : Option String
  readFail : Option ReadErrKind
  parse : String → Option JVal
  stringify : JVal → String
  saltBytes : List Nat
  derived : Except Unit (List Nat)
  uuid : String
  now : String
  writeFail : Bool
  renameFail : Bool

/-- Observable outcome of a run: a usage message with exit 1, a fatal error
with exit 1, or success carrying the resolved username and the store object
that was persisted. -/
inductive RunResult where
  | usage
  | fatal
  | ok (username : String) (db : JVal)
deriving Repr

/-- The load step (lines 79-86): `readFile` + `JSON.parse` + shape check
inside a catch-all `try`, so every failure — missing file, permission error,
parse error — falls back to the empty collection, as does a parsed value that
is not a truthy object with an array `users` field. -/
def loadDb (w : World) : JVal :=
  match w.readFail with
  | some _ => emptyDb
  | none =>
    match w.disk with
    | none => emptyDb
    | some raw =>
      match w.parse raw with
      | none => emptyDb
      | some v => if jsTruthy v ∧ isArr (jsGet v "users") then v else emptyDb

/-- Resolution of the optional email (lines 73-74): empty input means "not
provided", a non-empty input must normalize or the run aborts with usage. -/
def emailResolved (env : EnvVars) : Except Unit (Option String) :=
  if envEmail env = "" then .ok none
  else
    match normalizeEmail (envEmail env) with
    | none => .error ()
    | some e => .ok (some e)

/-- The whole script as a state-passing function from environment and world
to outcome and final backing-file content.  Validation (lines 24-25 and
68-74) precedes every filesystem step; the usage and fatal branches leave the
canonical file untouched (a failed `writeFile` touches only the temp path,
and a failed `rename` leaves the target in place). -/
def mainRun (env : EnvVars) (w : World) : RunResult × Option String :=
  if envUser env = "" then (.usage, w.disk)
  else if envPass env = "" then (.usage, w.disk)
  else
    match cleanUsername (envUser env) with
    | none => (.usage, w.disk)
    | some username =>
      match normalizePassword (envPass env) with
      | none => (.usage, w.disk)
      | some _password =>
        match emailResolved env with
        | .error _ => (.usage, w.disk)
        | .ok email =>
          let db := loadDb w
          match w.derived with
          | .error _ => (.fatal, w.disk)
          | .ok key =>
            match upsertDb db username email (bytesToHex w.saltBytes)
                (bytesToHex key) w.uuid w.now with
            | .error _ => (.fatal, w.disk)
            | .ok db2 =>
              if w.writeFail then (.fatal, w.disk)
              else if w.renameFail then (.fatal, w.disk)
              else (.ok username db2, some (w.stringify db2 ++ "\n"))

/-- Whether a persisted record's `username` field is exactly the given
normalized username. -/
def recMatches (username : String) (x : JVal) : Bool :=
  match jsGet x "username" with
  | .jstr s => s == username
  | _ => false

/-- Whether a record carries the forced admin invariants
`role = "admin"`, `disabled = false`, `accessUntilMs = null`. -/
def isAdminRec (x : JVal) : Bool :=
  (match jsGet x "role" with | .jstr s => s == "admin" | _ => false) &&
  (match jsGet x "disabled" with | .jbool b => !b | _ => false) &&
  (match jsGet x "accessUntilMs" with | .null => true | _ => false)

/-- The eleven property keys the update path may write. -/
def updatedKeys : List String :=
  ["username", "email", "role", "salt", "passHash", "quota", "unlocked",
   "contentTokens", "disabled", "accessUntilMs", "createdAt"]

theorem getF_setF_self (o : List (String × JVal)) (k : String) (v : JVal) :
    getF (setF o k v) k = v := by
  induction o with
  | nil => simp [setF, getF]
  | cons p rest ih =>
    by_cases h : p.1 = k
    · simp [setF, h, getF]
    · simp [setF, h, getF, ih]

theorem getF_setF_ne (o : List (String × JVal)) (k key : String) (v : JVal)
    (h : key ≠ k) : getF (setF o k v) key = getF o key := by
  induction o with
  | nil => simp [setF, getF, Ne.symm h]
  | cons p rest ih =>
    by_cases hp : p.1 = k
    · simp [setF, hp, getF, Ne.symm h]
    · by_cases hk : p.1 = key <;> simp [setF, hp, getF, hk, h, ih]

theorem getF_ite (c : Prop) [Decidable c] (a b : List (String × JVal))
    (k : String) : getF (if c then a else b) k = if c then getF a k else getF b k := by
  split <;> rfl

theorem updateRec_username (fs : List (String × JVal)) (u : String)
    (e : Option String) (s h now : String) :
    getF (updateRec fs u e s h now) "username" = .jstr u := by
  simp +decide [updateRec, getF_ite, getF_setF_self, getF_setF_ne]

theorem updateRec_role (fs : List (String × JVal)) (u : String)
    (e : Option String) (s h now : String) :
    getF (updateRec fs u e s h now) "role" = .jstr "admin" := by
  simp +decide [updateRec, getF_ite, getF_setF_self, getF_setF_ne]

theorem updateRec_salt (fs : List (String × JVal)) (u : String)
    (e : Option String) (s h now : String) :
    getF (updateRec fs u e s h now) "salt" = .jstr s := by
  simp +decide [updateRec, getF_ite, getF_setF_self, getF_setF_ne]

theorem updateRec_passHash (fs : List (String × JVal)) (u : String)
    (e : Option String) (s h now : String) :
    getF (updateRec fs u e s h now) "passHash" = .jstr h := by
  simp +decide [updateRec, getF_ite, getF_setF_self, getF_setF_ne]

theorem updateRec_disabled (fs : List (String × JVal)) (u : String)
    (e : Option String) (s h now : String) :
    getF (updateRec fs u e s h now) "disabled" = .jbool false := by
  simp +decide [updateRec, getF_ite, getF_setF_self, getF_setF_ne]

theorem updateRec_accessUntilMs (fs : List (String × JVal)) (u : String)
    (e : Option String) (s h now : String) :
    getF (updateRec fs u e s h now) "accessUntilMs" = .null := by
  simp +decide [updateRec, getF_ite, getF_setF_self, getF_setF_ne]

theorem updateRec_createdAt_truthy (fs : List (String × JVal)) (u : String)
    (e : Option String) (s h now : String)
    (ht : jsTruthy (getF fs "createdAt") = true) :
    getF (updateRec fs u e s h now) "createdAt" = getF fs "createdAt" := by
  simp +decide [updateRec, getF_ite, getF_setF_self, getF_setF_ne, ht]

theorem updateRec_createdAt_falsy (fs : List (String × JVal)) (u : String)
    (e : Option String) (s h now : String)
    (ht : jsTruthy (getF fs "createdAt") = false) :
    getF (updateRec fs u e s h now) "createdAt" = .jstr now := by
  simp +decide [updateRec, getF_ite, getF_setF_self, getF_setF_ne, ht]

theorem updateRec_frame (fs : List (String × JVal)) (u : String)
    (e : Option String) (s h now : String) (key : String)
    (hk : key ∉ updatedKeys) :
    getF (updateRec fs u e s h now) key = getF fs key := by
  simp only [updatedKeys, List.mem_cons, List.not_mem_nil, or_false, not_or] at hk
  obtain ⟨h1, h2, h3, h4, h5, h6, h7, h8, h9, h10, h11⟩ := hk
  simp [updateRec, getF_ite, getF_setF_ne _ _ _ _ h1, getF_setF_ne _ _ _ _ h2,
    getF_setF_ne _ _ _ _ h3, getF_setF_ne _ _ _ _ h4, getF_setF_ne _ _ _ _ h5,
    getF_setF_ne _ _ _ _ h6, getF_setF_ne _ _ _ _ h7, getF_setF_ne _ _ _ _ h8,
    getF_setF_ne _ _ _ _ h9, getF_setF_ne _ _ _ _ h10, getF_setF_ne _ _ _ _ h11]

theorem findPred_of_recMatches (u : String) (x : JVal)
    (h : recMatches u x = true) : findPred u x = true := by
  cases x with
  | jobj fs =>
    simp only [recMatches, jsGet] at h
    split at h
    next s heq =>
      simp [findPred, jsTruthy, jsGet, heq, jsToString, eq_of_beq h]
    next => exact absurd h (by simp)
  | null => simp [recMatches, jsGet] at h
  | undefVal => simp [recMatches, jsGet] at h
  | jbool b => simp [recMatches, jsGet] at h
  | jnum n => simp [recMatches, jsGet] at h
  | jstr s => simp [recMatches, jsGet] at h
  | jarr xs => simp [recMatches, jsGet] at h

theorem recMatches_newRecord (u : String) (e : Option String)
    (s h id now : String) : recMatches u (newRecord u e s h id now) = true := by
  simp +decide [recMatches, newRecord, jsGet, getF]

theorem isAdminRec_newRecord (u : String) (e : Option String)
    (s h id now : String) : isAdminRec (newRecord u e s h id now) = true := by
  simp +decide [isAdminRec, newRecord, jsGet, getF]

theorem recMatches_updateRec (u : String) (fs : List (String × JVal))
    (e : Option String) (s h now : String) :
    recMatches u (.jobj (updateRec fs u e s h now)) = true := by
  simp [recMatches, jsGet, updateRec_username]

theorem isAdminRec_updateRec (u : String) (fs : List (String × JVal))
    (e : Option String) (s h now : String) :
    isAdminRec (.jobj (updateRec fs u e s h now)) = true := by
  simp [isAdminRec, jsGet, updateRec_role, updateRec_disabled,
    updateRec_accessUntilMs]

theorem find?_split (p : JVal → Bool) (l : List JVal) (u : JVal)
    (h : l.find? p = some u) :
    ∃ l1 l2, l = l1 ++ u :: l2 ∧ (∀ x ∈ l1, p x = false) ∧ p u = true ∧
      ∀ v, replaceFirst p v l = l1 ++ v :: l2 := by
  induction l with
  | nil => simp [List.find?] at h
  | cons x xs ih =>
    by_cases hp : p x = true
    · refine ⟨[], xs, ?_, by simp, ?_, ?_⟩
      · simp only [List.find?, hp] at h
        simp_all
      · simp only [List.find?, hp] at h
        cases h; exact hp
      · intro v
        simp only [List.find?, hp] at h
        cases h; simp [replaceFirst, hp]
    · simp only [List.find?, Bool.not_eq_true] at hp
      rw [List.find?_cons_of_neg _ (by simp [hp])] at h
      obtain ⟨l1, l2, hdec, hfalse, hpu, hrep⟩ := ih h
      refine ⟨x :: l1, l2, by simp [hdec], ?_, hpu, ?_⟩
      · intro y hy
        rcases List.mem_cons.mp hy with rfl | hy'
        · exact hp
        · exact hfalse y hy'
      · intro v
        simp [replaceFirst, hp, hrep v]

theorem short_list_mem_eq {α : Type} (l : List α) (hl : l.length ≤ 1)
    (a b : α) (ha : a ∈ l) (hb : b ∈ l) : a = b := by
  match l, hl with
  | [], _ => cases ha
  | [x], _ =>
    rw [List.mem_singleton] at ha hb
    rw [ha, hb]

theorem truthy_of_recMatches (u : String) (x : JVal)
    (h : recMatches u x = true) : jsTruthy x = true := by
  cases x with
  | jobj fs => rfl
  | null => simp [recMatches, jsGet] at h
  | undefVal => simp [recMatches, jsGet] at h
  | jbool b => simp [recMatches, jsGet] at h
  | jnum n => simp [recMatches, jsGet] at h
  | jstr s => simp [recMatches, jsGet] at h
  | jarr xs => simp [recMatches, jsGet] at h

theorem upsert_unique_admin (users : List JVal) (username : String)
    (email : Option String) (saltHex hashHex id now : String)
    (hobj : ∀ x ∈ users, jsTruthy x = true → ∃ fs, x = JVal.jobj fs)
    (hone : users.countP (findPred username) ≤ 1) :
    ∃ users2,
      upsertUsers users username email saltHex hashHex id now = .ok users2 ∧
      users2.countP (recMatches username) = 1 ∧
      ∀ x ∈ users2, recMatches username x = true → isAdminRec x = true := by
  unfold upsertUsers
  cases hfind : users.find? (findPred username) with
  | none =>
    have hrm : ∀ x ∈ users, recMatches username x = false := by
      intro x hx
      by_contra hc
      have hc' : recMatches username x = true := by
        simpa using hc
      have := List.find?_eq_none.mp hfind x hx
      exact this (findPred_of_recMatches _ _ hc')
    refine ⟨users ++ [newRecord username email saltHex hashHex id now], rfl,
      ?_, ?_⟩
    · rw [List.countP_append,
        List.countP_eq_zero.mpr (by intro a ha; simp [hrm a ha])]
      simp [List.countP_cons, recMatches_newRecord]
    · intro x hx hmx
      rcases List.mem_append.mp hx with hx1 | hx2
      · exact absurd hmx (by simp [hrm x hx1])
      · rw [List.mem_singleton] at hx2
        subst hx2
        exact isAdminRec_newRecord username email saltHex hashHex id now
  | some u =>
    have hpu : findPred username u = true := List.find?_some hfind
    have hmemu : u ∈ users := List.mem_of_find?_eq_some hfind
    by_cases htru : jsTruthy u = true
    · obtain ⟨fs, rfl⟩ := hobj u hmemu htru
      obtain ⟨l1, l2, hdec, hfalse, _, hrep⟩ := find?_split _ _ _ hfind
      have hcnt : users.countP (findPred username) =
          l1.countP (findPred username) + (1 + l2.countP (findPred username)) := by
        rw [hdec, List.countP_append, List.countP_cons]
        simp [hpu]
        omega
      have hl2 : ∀ x ∈ l2, findPred username x = false := by
        intro x hx
        have h0 : l2.countP (findPred username) = 0 := by omega
        have := List.countP_eq_zero.mp h0 x hx
        simpa using this
      simp only [jsTruthy, if_true]
      refine ⟨replaceFirst (findPred username)
        (.jobj (updateRec fs username email saltHex hashHex now)) users,
        rfl, ?_, ?_⟩
      · rw [hrep, List.countP_append, List.countP_cons,
          List.countP_eq_zero.mpr (by
            intro a ha
            by_contra hc
            have hc' : recMatches username a = true := by simpa using hc
            exact absurd (findPred_of_recMatches _ _ hc') (by simp [hfalse a ha])),
          List.countP_eq_zero.mpr (by
            intro a ha
            by_contra hc
            have hc' : recMatches username a = true := by simpa using hc
            exact absurd (findPred_of_recMatches _ _ hc') (by simp [hl2 a ha]))]
        simp [recMatches_updateRec]
      · intro x hx hmx
        rw [hrep] at hx
        rcases List.mem_append.mp hx with hx1 | hx2
        · exact absurd (findPred_of_recMatches _ _ hmx) (by simp [hfalse x hx1])
        · rcases List.mem_cons.mp hx2 with rfl | hx3
          · exact isAdminRec_updateRec username fs email saltHex hashHex now
          · exact absurd (findPred_of_recMatches _ _ hmx) (by simp [hl2 x hx3])
    · have htru' : jsTruthy u = false := by simpa using htru
      have hfilter : (users.filter (findPred username)).length ≤ 1 := by
        rw [← List.countP_eq_length_filter]
        exact hone
      have huf : u ∈ users.filter (findPred username) :=
        List.mem_filter.mpr ⟨hmemu, hpu⟩
      have hrm : ∀ x ∈ users, recMatches username x = false := by
        intro x hx
        by_contra hc
        have hc' : recMatches username x = true := by simpa using hc
        have hxf : x ∈ users.filter (findPred username) :=
          List.mem_filter.mpr ⟨hx, findPred_of_recMatches _ _ hc'⟩
        have hxu : x = u := short_list_mem_eq _ hfilter x u hxf huf
        subst hxu
        rw [truthy_of_recMatches _ _ hc'] at htru'
        cases htru'
      simp only [htru', Bool.false_eq_true, if_false]
      refine ⟨users ++ [newRecord username email saltHex hashHex id now], rfl,
        ?_, ?_⟩
      · rw [List.countP_append,
        List.countP_eq_zero.mpr (by intro a ha; simp [hrm a ha])]
        simp [List.countP_cons, recMatches_newRecord]
      · intro x hx hmx
        rcases List.mem_append.mp hx with hx1 | hx2
        · exact absurd hmx (by simp [hrm x hx1])
        · rw [List.mem_singleton] at hx2
          subst hx2
          exact isAdminRec_newRecord username email saltHex hashHex id now

theorem loadDb_isObj (w : World) : ∃ fs, loadDb w = .jobj fs := by
  unfold loadDb
  split
  · exact ⟨_, rfl⟩
  split
  · exact ⟨_, rfl⟩
  split
  · exact ⟨_, rfl⟩
  split
  case isTrue hc =>
    rename_i u heq
    obtain ⟨ht, ha⟩ := hc
    cases u with
    | jobj fs => exact ⟨fs, rfl⟩
    | null => simp [jsGet, isArr] at ha
    | undefVal => simp [jsGet, isArr] at ha
    | jbool b => simp [jsGet, isArr] at ha
    | jnum n => simp [jsGet, isArr] at ha
    | jstr s => simp [jsGet, isArr] at ha
    | jarr xs => simp [jsGet, isArr] at ha
  case isFalse => exact ⟨_, rfl⟩

theorem usersOf_setUsers_loadDb (w : World) (xs : List JVal) :
    usersOf (setUsers (loadDb w) xs) = xs := by
  obtain ⟨fs, hfs⟩ := loadDb_isObj w
  rw [hfs]
  simp [setUsers, usersOf, jsGet, getF_setF_self]

theorem cleanUsername_empty_none : cleanUsername "" = none := by decide

theorem normalizePassword_empty_none : normalizePassword "" = none := by decide

theorem mainRun_ok (env : EnvVars) (w : World) (username password : String)
    (email : Option String) (key : List Nat) (users2 : List JVal)
    (hU : cleanUsername (envUser env) = some username)
    (hP : normalizePassword (envPass env) = some password)
    (hE : emailResolved env = .ok email)
    (hK : w.derived = .ok key)
    (hW : w.writeFail = false) (hR : w.renameFail = false)
    (hup : upsertUsers (usersOf (loadDb w)) username email
      (bytesToHex w.saltBytes) (bytesToHex key) w.uuid w.now = .ok users2) :
    mainRun env w = (.ok username (setUsers (loadDb w) users2),
      some (w.stringify (setUsers (loadDb w) users2) ++ "\n")) := by
  have hne1 : ¬ envUser env = "" := by
    intro h
    rw [h, cleanUsername_empty_none] at hU
    cases hU
  have hne2 : ¬ envPass env = "" := by
    intro h
    rw [h, normalizePassword_empty_none] at hP
    cases hP
  simp only [mainRun, if_neg hne1, if_neg hne2, hU, hP, hE, hK, upsertDb, hup,
    Except.map, hW, hR]
  simp

/-- Example environment from the spec: `ADMIN_USER="root-ops"`,
`ADMIN_PASS="correcthorse1"`, no email. -/
def envEx1 : EnvVars := ⟨some "root-ops", none, some "correcthorse1", none, none⟩

/-- A store record that already carries the admin shape for `root-ops`. -/
def dupRec : JVal :=
  .jobj [("username", .jstr "root-ops"), ("role", .jstr "admin"),
         ("disabled", .jbool false), ("accessUntilMs", .null),
         ("createdAt", .jstr "2020-01-01T00:00:00.000Z")]

/-- A corrupted store whose collection holds the same username twice. -/
def dupDb : JVal := .jobj [("users", .jarr [dupRec, dupRec])]

/-- World with an absent backing file and successful derivation/persist. -/
def wEmpty : World :=
  ⟨none, none, fun _ => none, fun _ => "", List.replicate 16 0,
   .ok (List.replicate 64 1), "id-1", "2024-01-02T03:04:05.000Z", false, false⟩

/-- World whose backing file parses to the duplicate-username store. -/
def wDup : World :=
  ⟨some "store", none, fun _ => some dupDb, fun _ => "", List.replicate 16 0,
   .ok (List.replicate 64 1), "id-1", "2024-01-02T03:04:05.000Z", false, false⟩

/-- World whose backing file exists but reading it raises a permission
error. -/
def wPerm : World :=
  ⟨some "store", some .eacces, fun _ => some dupDb, fun _ => "",
   List.replicate 16 0, .ok (List.replicate 64 1), "id-1",
   "2024-01-02T03:04:05.000Z", false, false⟩

/-- The store produced by running the bootstrap over `wDup`: the first
duplicate was updated in place, the second left untouched. -/
def dupResultDb : JVal :=
  .jobj [("users", .jarr [
    .jobj [("username", .jstr "root-ops"), ("role", .jstr "admin"),
           ("disabled", .jbool false), ("accessUntilMs", .null),
           ("createdAt", .jstr "2020-01-01T00:00:00.000Z"),
           ("salt", .jstr "00000000000000000000000000000000"),
           ("passHash", .jstr "01010101010101010101010101010101010101010101010101010101010101010101010101010101010101010101010101010101010101010101010101010101"),
           ("quota", .jnum (-1)), ("unlocked", .jarr []),
           ("contentTokens", .jarr [])],
    dupRec])]

set_option maxRecDepth 4096 in
/-- C1 (counterexample): the claim quantifies over every initial user
collection, but when the initial collection already holds the target
username twice (a corrupted store the load step accepts), a successful run
leaves two records whose username equals the normalized input, not exactly
one. -/
theorem c1_duplicate_counterexample :
    (mainRun envEx1 wDup).1 = .ok "root-ops" dupResultDb ∧
      (usersOf dupResultDb).countP (recMatches "root-ops") = 2 :=
  ⟨rfl, rfl⟩

/-- C1 (amended): for every initial user collection whose truthy elements
are objects and in which at most one element matches the username lookup
`String(x && x.username) === username`, a successful run leaves exactly one
record whose username equals the normalized input, and every record with
that username has `role = "admin"`, `disabled = false`,
`accessUntilMs = null`. -/
theorem c1_unique_admin_record (env : EnvVars) (w : World)
    (username password : String) (email : Option String) (key : List Nat)
    (hU : cleanUsername (envUser env) = some username)
    (hP : normalizePassword (envPass env) = some password)
    (hE : emailResolved env = .ok email)
    (hK : w.derived = .ok key)
    (hW : w.writeFail = false) (hR : w.renameFail = false)
    (hobj : ∀ x ∈ usersOf (loadDb w), jsTruthy x = true → ∃ fs, x = JVal.jobj fs)
    (hone : (usersOf (loadDb w)).countP (findPred username) ≤ 1) :
    ∃ db2, (mainRun env w).1 = .ok username db2 ∧
      (usersOf db2).countP (recMatches username) = 1 ∧
      ∀ x ∈ usersOf db2, recMatches username x = true → isAdminRec x = true := by
  obtain ⟨users2, hup, hcnt, hadm⟩ := upsert_unique_admin (usersOf (loadDb w))
    username email (bytesToHex w.saltBytes) (bytesToHex key) w.uuid w.now
    hobj hone
  refine ⟨setUsers (loadDb w) users2, ?_, ?_, ?_⟩
  · rw [mainRun_ok env w username password email key users2 hU hP hE hK hW hR hup]
  · rw [usersOf_setUsers_loadDb]
    exact hcnt
  · rw [usersOf_setUsers_loadDb]
    exact hadm

/-- Witness for C1: the amended theorem applied to the empty store and the
example credentials. -/
theorem c1_unique_admin_record_witness :
    ∃ db2, (mainRun envEx1 wEmpty).1 = .ok "root-ops" db2 ∧
      (usersOf db2).countP (recMatches "root-ops") = 1 ∧
      ∀ x ∈ usersOf db2, recMatches "root-ops" x = true → isAdminRec x = true :=
  c1_unique_admin_record envEx1 wEmpty "root-ops" "correcthorse1" none
    (List.replicate 64 1) (by decide) (by decide) rfl rfl rfl rfl
    (by intro x hx; exact absurd hx (List.not_mem_nil x)) (by decide)

set_option maxRecDepth 4096 in
/-- C2 (counterexample): a permission error raised while reading the backing
file does not abort the run: the catch-all around the load step substitutes
the empty collection and the run completes successfully, creating the admin
record from scratch. -/
theorem c2_permission_error_counterexample :
    (mainRun envEx1 wPerm).1 = .ok "root-ops"
      (.jobj [("users", .jarr [newRecord "root-ops" none
        (bytesToHex (List.replicate 16 0)) (bytesToHex (List.replicate 64 1))
        "id-1" "2024-01-02T03:04:05.000Z"])]) :=
  rfl

/-- C2 (amended): every error raised while reading the backing file —
missing file, permission error, or any other kind — is recovered by
substituting the empty collection, so a run with valid inputs and a working
derive/persist still succeeds and rebuilds the admin record from an empty
collection; fatal non-zero aborts happen only for derivation or persist
failures. -/
theorem c2_load_errors_recovered (env : EnvVars) (w : World)
    (username password : String) (email : Option String) (key : List Nat)
    (k : ReadErrKind)
    (hU : cleanUsername (envUser env) = some username)
    (hP : normalizePassword (envPass env) = some password)
    (hE : emailResolved env = .ok email)
    (hrf : w.readFail = some k) :
    loadDb w = emptyDb ∧
    (w.derived = .ok key → w.writeFail = false → w.renameFail = false →
      (mainRun env w).1 = .ok username
        (.jobj [("users", .jarr [newRecord username email
          (bytesToHex w.saltBytes) (bytesToHex key) w.uuid w.now])])) ∧
    (w.derived = .error () → mainRun env w = (.fatal, w.disk)) ∧
    (w.derived = .ok key → w.writeFail = true → mainRun env w = (.fatal, w.disk)) := by
  have hne1 : ¬ envUser env = "" := by
    intro h
    rw [h, cleanUsername_empty_none] at hU
    cases hU
  have hne2 : ¬ envPass env = "" := by
    intro h
    rw [h, normalizePassword_empty_none] at hP
    cases hP
  have hload : loadDb w = emptyDb := by
    unfold loadDb
    rw [hrf]
  refine ⟨hload, ?_, ?_, ?_⟩
  · intro hK hW hR
    have hup : upsertUsers (usersOf (loadDb w)) username email
        (bytesToHex w.saltBytes) (bytesToHex key) w.uuid w.now =
        .ok [newRecord username email (bytesToHex w.saltBytes)
          (bytesToHex key) w.uuid w.now] := by
      rw [hload]
      rfl
    rw [mainRun_ok env w username password email key _ hU hP hE hK hW hR hup]
    rw [hload]
    rfl
  · intro hD
    simp only [mainRun, if_neg hne1, if_neg hne2, hU, hP, hE, hD]
  · intro hK hW
    have hup : upsertUsers (usersOf (loadDb w)) username email
        (bytesToHex w.saltBytes) (bytesToHex key) w.uuid w.now =
        .ok [newRecord username email (bytesToHex w.saltBytes)
          (bytesToHex key) w.uuid w.now] := by
      rw [hload]
      rfl
    simp only [mainRun, if_neg hne1, if_neg hne2, hU, hP, hE, hK, upsertDb,
      hup, Except.map, hW, if_true]

/-- Witness for C2: the amended theorem applied to the permission-error
world, using its success conjunct. -/
theorem c2_load_errors_recovered_witness :
    (mainRun envEx1 wPerm).1 = .ok "root-ops"
      (.jobj [("users", .jarr [newRecord "root-ops" none
        (bytesToHex wPerm.saltBytes) (bytesToHex (List.replicate 64 1))
        wPerm.uuid wPerm.now])]) :=
  (c2_load_errors_recovered envEx1 wPerm "root-ops" "correcthorse1" none
    (List.replicate 64 1) .eacces (by decide) (by decide) rfl rfl).2.1 rfl rfl rfl

theorem hexDigitChar_inj (m n : Nat) (hm : m < 16) (hn : n < 16)
    (h : hexDigitChar m = hexDigitChar n) : m = n := by
  interval_cases m <;> interval_cases n <;> revert h <;> decide

theorem byteToHex_inj (a b : Nat) (ha : a < 256) (hb : b < 256)
    (h : byteToHex a = byteToHex b) : a = b := by
  simp only [byteToHex, List.cons.injEq, and_true] at h
  obtain ⟨h1, h2⟩ := h
  have d1 : a / 16 % 16 = b / 16 % 16 :=
    hexDigitChar_inj _ _ (Nat.mod_lt _ (by omega)) (Nat.mod_lt _ (by omega)) h1
  have d2 : a % 16 = b % 16 :=
    hexDigitChar_inj _ _ (Nat.mod_lt _ (by omega)) (Nat.mod_lt _ (by omega)) h2
  omega

theorem bytesToHexL_inj (s1 : List Nat) : ∀ (s2 : List Nat),
    (∀ b ∈ s1, b < 256) → (∀ b ∈ s2, b < 256) → s1.length = s2.length →
    bytesToHexL s1 = bytesToHexL s2 → s1 = s2 := by
  induction s1 with
  | nil =>
    intro s2 _ _ hlen _
    cases s2 with
    | nil => rfl
    | cons b t => simp at hlen
  | cons a t ih =>
    intro s2 hb1 hb2 hlen h
    cases s2 with
    | nil => simp at hlen
    | cons b t2 =>
      simp only [bytesToHexL, List.map_cons, List.flatten_cons, byteToHex,
        List.cons_append, List.nil_append, List.cons.injEq] at h
      obtain ⟨h1, h2, h3⟩ := h
      have ha : a < 256 := hb1 a (by simp)
      have hbb : b < 256 := hb2 b (by simp)
      have hab : a = b := byteToHex_inj a b ha hbb (by
        simp only [byteToHex, List.cons.injEq, and_true]
        exact ⟨h1, h2⟩)
      have ht : t = t2 := ih t2 (fun x hx => hb1 x (by simp [hx]))
        (fun x hx => hb2 x (by simp [hx])) (by simpa using hlen)
        (by simpa [bytesToHexL] using h3)
      rw [hab, ht]

theorem bytesToHex_inj (s1 s2 : List Nat) (hb1 : ∀ b ∈ s1, b < 256)
    (hb2 : ∀ b ∈ s2, b < 256) (hlen : s1.length = s2.length)
    (h : bytesToHex s1 = bytesToHex s2) : s1 = s2 := by
  apply bytesToHexL_inj s1 s2 hb1 hb2 hlen
  have := congrArg String.data h
  simpa [bytesToHex] using this

theorem upsertUsers_single_obj (fs : List (String × JVal)) (username : String)
    (email : Option String) (saltHex hashHex id now : String)
    (hmatch : findPred username (.jobj fs) = true) :
    upsertUsers [.jobj fs] username email saltHex hashHex id now =
      .ok [.jobj (updateRec fs username email saltHex hashHex now)] := by
  unfold upsertUsers
  simp [List.find?, hmatch, jsTruthy, replaceFirst]

/-- C3: starting from an empty store, running the upsert twice with the same
validated username yields exactly one record (not two); the second run
overwrites `salt` and `passHash` with the freshly derived values, and since
the random salts of the two runs differ, the stored salt/passHash pairs of
the two runs differ even for the same password. -/
theorem c3_second_run_rotates_credentials
    (rawU rawP username password : String) (email1 email2 : Option String)
    (salt1 salt2 key1 key2 : List Nat) (id1 id2 now1 now2 : String)
    (hU : cleanUsername rawU = some username)
    (hP : normalizePassword rawP = some password)
    (hb1 : ∀ b ∈ salt1, b < 256) (hb2 : ∀ b ∈ salt2, b < 256)
    (hl1 : salt1.length = 16) (hl2 : salt2.length = 16)
    (hne : salt1 ≠ salt2) :
    ∃ r1, upsertUsers [] username email1 (bytesToHex salt1) (bytesToHex key1)
        id1 now1 = .ok [r1] ∧
    ∃ r2, upsertUsers [r1] username email2 (bytesToHex salt2) (bytesToHex key2)
        id2 now2 = .ok [r2] ∧
      jsGet r2 "salt" = .jstr (bytesToHex salt2) ∧
      jsGet r2 "passHash" = .jstr (bytesToHex key2) ∧
      (jsGet r1 "salt", jsGet r1 "passHash") ≠
        (jsGet r2 "salt", jsGet r2 "passHash") := by
  refine ⟨newRecord username email1 (bytesToHex salt1) (bytesToHex key1) id1 now1,
    rfl, ?_⟩
  have hmatch : findPred username
      (.jobj (newRecordFields username email1 (bytesToHex salt1)
        (bytesToHex key1) id1 now1)) = true :=
    findPred_of_recMatches username _
      (recMatches_newRecord username email1 (bytesToHex salt1)
        (bytesToHex key1) id1 now1)
  refine ⟨.jobj (updateRec (newRecordFields username email1 (bytesToHex salt1)
      (bytesToHex key1) id1 now1) username email2 (bytesToHex salt2)
      (bytesToHex key2) now2),
    upsertUsers_single_obj _ username email2 (bytesToHex salt2)
      (bytesToHex key2) id2 now2 hmatch, ?_, ?_, ?_⟩
  · exact updateRec_salt _ _ _ _ _ _
  · exact updateRec_passHash _ _ _ _ _ _
  · intro hpair
    have hsalt1 : jsGet (newRecord username email1 (bytesToHex salt1)
        (bytesToHex key1) id1 now1) "salt" = .jstr (bytesToHex salt1) := by
      simp +decide [newRecord, newRecordFields, jsGet, getF]
    have h2 : jsGet (JVal.jobj (updateRec (newRecordFields username email1
        (bytesToHex salt1) (bytesToHex key1) id1 now1) username email2
        (bytesToHex salt2) (bytesToHex key2) now2)) "salt" =
        .jstr (bytesToHex salt2) := updateRec_salt _ _ _ _ _ _
    have := congrArg Prod.fst hpair
    rw [hsalt1, h2] at this
    have heq : bytesToHex salt1 = bytesToHex salt2 := by
      injection this
    exact hne (bytesToHex_inj salt1 salt2 hb1 hb2 (by omega) heq)

/-- Witness for C3: the theorem applied to the example credentials with the
all-zero and all-one 16-byte salts. -/
theorem c3_second_run_rotates_credentials_witness :
    ∃ r1, upsertUsers [] "root-ops" none (bytesToHex (List.replicate 16 0))
        (bytesToHex (List.replicate 64 2)) "id-1" "t1" = .ok [r1] ∧
    ∃ r2, upsertUsers [r1] "root-ops" none (bytesToHex (List.replicate 16 1))
        (bytesToHex (List.replicate 64 3)) "id-2" "t2" = .ok [r2] ∧
      jsGet r2 "salt" = .jstr (bytesToHex (List.replicate 16 1)) ∧
      jsGet r2 "passHash" = .jstr (bytesToHex (List.replicate 64 3)) ∧
      (jsGet r1 "salt", jsGet r1 "passHash") ≠
        (jsGet r2 "salt", jsGet r2 "passHash") :=
  c3_second_run_rotates_credentials "root-ops" "correcthorse1" "root-ops"
    "correcthorse1" none none (List.replicate 16 0) (List.replicate 16 1)
    (List.replicate 64 2) (List.replicate 64 3) "id-1" "id-2" "t1" "t2"
    (by decide) (by decide) (by decide) (by decide) (by decide) (by decide)
    (by decide)

/-- An existing record whose `createdAt` is present but falsy (the empty
string). -/
def falsyCreatedFields : List (String × JVal) :=
  [("username", .jstr "abc-user"), ("createdAt", .jstr "")]

/-- C4 (counterexample): the claim says `createdAt` is only written when it
is absent on the existing record, but `if (!u.createdAt)` tests truthiness:
a record whose `createdAt` is present but falsy (here the empty string) has
it overwritten with the current time by the update path. -/
theorem c4_falsy_createdAt_counterexample :
    getF falsyCreatedFields "createdAt" = .jstr "" ∧
    upsertUsers [.jobj falsyCreatedFields] "abc-user" none "ss" "hh" "id-9"
        "2024-06-01T00:00:00.000Z" =
      .ok [.jobj (updateRec falsyCreatedFields "abc-user" none "ss" "hh"
        "2024-06-01T00:00:00.000Z")] ∧
    getF (updateRec falsyCreatedFields "abc-user" none "ss" "hh"
        "2024-06-01T00:00:00.000Z") "createdAt" =
      .jstr "2024-06-01T00:00:00.000Z" ∧
    JVal.jstr "2024-06-01T00:00:00.000Z" ≠ .jstr "" :=
  ⟨rfl, rfl, rfl, by intro h; injection h with h'; exact absurd h' (by decide)⟩

/-- C4 (amended): a truthy `createdAt` — in particular the non-empty
timestamp written at first creation — is left unchanged by the update path;
`createdAt` is written exactly when it is absent or falsy (absent, `null`,
empty string, `0`, or `false`) on the existing record, in which case it
becomes the current time. -/
theorem c4_createdAt_write_once (fs : List (String × JVal)) (u : String)
    (e : Option String) (s h now : String) :
    (jsTruthy (getF fs "createdAt") = true →
      getF (updateRec fs u e s h now) "createdAt" = getF fs "createdAt") ∧
    (jsTruthy (getF fs "createdAt") = false →
      getF (updateRec fs u e s h now) "createdAt" = .jstr now) ∧
    (∀ email saltHex hashHex id now1,
      getF (newRecordFields u email saltHex hashHex id now1) "createdAt" =
        .jstr now1) ∧
    (∀ email saltHex hashHex id now1, now1 ≠ "" →
      getF (updateRec (newRecordFields u email saltHex hashHex id now1)
        u e s h now) "createdAt" = .jstr now1) := by
  refine ⟨updateRec_createdAt_truthy fs u e s h now,
    updateRec_createdAt_falsy fs u e s h now, ?_, ?_⟩
  · intro email saltHex hashHex id now1
    simp +decide [newRecordFields, getF]
  · intro email saltHex hashHex id now1 hne
    have hget : getF (newRecordFields u email saltHex hashHex id now1)
        "createdAt" = .jstr now1 := by
      simp +decide [newRecordFields, getF]
    have ht : jsTruthy (getF (newRecordFields u email saltHex hashHex id now1)
        "createdAt") = true := by
      rw [hget]
      simp [jsTruthy, hne]
    rw [updateRec_createdAt_truthy _ u e s h now ht, hget]

/-- Witness for C4: the amended theorem applied to a record created at a
concrete non-empty time and updated later. -/
theorem c4_createdAt_write_once_witness :
    getF (updateRec (newRecordFields "root-ops" none "s1" "h1" "id-1" "t1")
      "root-ops" none "s2" "h2" "t2") "createdAt" = .jstr "t1" :=
  (c4_createdAt_write_once (newRecordFields "root-ops" none "s1" "h1" "id-1"
    "t1") "root-ops" none "s2" "h2" "t2").2.2.2 none "s1" "h1" "id-1" "t1"
    (by decide)

theorem mainRun_fresh (env : EnvVars) (w : World) (username password : String)
    (email : Option String) (key : List Nat)
    (hU : cleanUsername (envUser env) = some username)
    (hP : normalizePassword (envPass env) = some password)
    (hE : emailResolved env = .ok email)
    (hK : w.derived = .ok key)
    (hW : w.writeFail = false) (hR : w.renameFail = false)
    (hload : loadDb w = emptyDb) :
    (mainRun env w).1 = .ok username
      (.jobj [("users", .jarr [newRecord username email
        (bytesToHex w.saltBytes) (bytesToHex key) w.uuid w.now])]) := by
  have hup : upsertUsers (usersOf (loadDb w)) username email
      (bytesToHex w.saltBytes) (bytesToHex key) w.uuid w.now =
      .ok [newRecord username email (bytesToHex w.saltBytes)
        (bytesToHex key) w.uuid w.now] := by
    rw [hload]
    rfl
  rw [mainRun_ok env w username password email key _ hU hP hE hK hW hR hup,
    hload]
  rfl

/-- World whose backing file holds content that fails to parse as JSON. -/
def wBadJson : World :=
  ⟨some "not json at all", none, fun _ => none, fun _ => "",
   List.replicate 16 0, .ok (List.replicate 64 1), "id-1",
   "2024-01-02T03:04:05.000Z", false, false⟩

/-- C5: when the backing file's content is invalid JSON, or parses to a
value that is not a truthy object with an array `users` field, the run still
succeeds and the resulting store holds exactly the newly created admin
record. -/
theorem c5_corrupt_store_recovered (env : EnvVars) (w : World)
    (username password raw : String) (email : Option String) (key : List Nat)
    (hU : cleanUsername (envUser env) = some username)
    (hP : normalizePassword (envPass env) = some password)
    (hE : emailResolved env = .ok email)
    (hrf : w.readFail = none) (hd : w.disk = some raw)
    (hbad : w.parse raw = none ∨ ∀ v, w.parse raw = some v →
      ¬(jsTruthy v = true ∧ isArr (jsGet v "users") = true))
    (hK : w.derived = .ok key)
    (hW : w.writeFail = false) (hR : w.renameFail = false) :
    (mainRun env w).1 = .ok username
      (.jobj [("users", .jarr [newRecord username email
        (bytesToHex w.saltBytes) (bytesToHex key) w.uuid w.now])]) := by
  have hload : loadDb w = emptyDb := by
    rcases hbad with hnone | hshape
    · simp only [loadDb, hrf, hd, hnone]
    · cases hp : w.parse raw with
      | none => simp only [loadDb, hrf, hd, hp]
      | some v =>
        have hv := hshape v hp
        simp only [loadDb, hrf, hd, hp, if_neg hv]
  exact mainRun_fresh env w username password email key hU hP hE hK hW hR hload

/-- Witness for C5: the theorem applied to a world whose file content does
not parse. -/
theorem c5_corrupt_store_recovered_witness :
    (mainRun envEx1 wBadJson).1 = .ok "root-ops"
      (.jobj [("users", .jarr [newRecord "root-ops" none
        (bytesToHex wBadJson.saltBytes) (bytesToHex (List.replicate 64 1))
        wBadJson.uuid wBadJson.now])]) :=
  c5_corrupt_store_recovered envEx1 wBadJson "root-ops" "correcthorse1"
    "not json at all" none (List.replicate 64 1) (by decide) (by decide) rfl
    rfl rfl (Or.inl rfl) rfl rfl rfl

theorem isHexDigit_hexDigitChar (m : Nat) (hm : m < 16) :
    isHexDigit (hexDigitChar m) = true := by
  interval_cases m <;> decide

theorem bytesToHexL_length (bs : List Nat) :
    (bytesToHexL bs).length = 2 * bs.length := by
  induction bs with
  | nil => rfl
  | cons a t ih =>
    simp only [bytesToHexL, List.map_cons, List.flatten_cons, byteToHex,
      List.length_append, List.length_cons, List.length_nil] at *
    omega

theorem bytesToHexL_all_hex (bs : List Nat) :
    (bytesToHexL bs).all isHexDigit = true := by
  induction bs with
  | nil => rfl
  | cons a t ih =>
    simp only [bytesToHexL, List.map_cons, List.flatten_cons, byteToHex,
      List.cons_append, List.nil_append, List.all_cons, Bool.and_eq_true] at *
    exact ⟨isHexDigit_hexDigitChar _ (Nat.mod_lt _ (by omega)),
      isHexDigit_hexDigitChar _ (Nat.mod_lt _ (by omega)), ih⟩

/-- C6: a run against an empty store with valid username and password
creates a record with `role = "admin"`, `disabled = false`,
`accessUntilMs = null`, `quota = -1`, empty `unlocked` and `contentTokens`,
a 32-hex-character `salt`, and a 128-hex-character `passHash`. -/
theorem c6_new_record_shape (env : EnvVars) (w : World)
    (username password : String) (email : Option String) (key : List Nat)
    (hU : cleanUsername (envUser env) = some username)
    (hP : normalizePassword (envPass env) = some password)
    (hE : emailResolved env = .ok email)
    (hrf : w.readFail = none) (hd : w.disk = none)
    (hs : w.saltBytes.length = 16) (hk : key.length = 64)
    (hK : w.derived = .ok key)
    (hW : w.writeFail = false) (hR : w.renameFail = false) :
    ∃ r, (mainRun env w).1 = .ok username (.jobj [("users", .jarr [r])]) ∧
      jsGet r "username" = .jstr username ∧
      jsGet r "role" = .jstr "admin" ∧
      jsGet r "disabled" = .jbool false ∧
      jsGet r "accessUntilMs" = .null ∧
      jsGet r "quota" = .jnum (-1) ∧
      jsGet r "unlocked" = .jarr [] ∧
      jsGet r "contentTokens" = .jarr [] ∧
      (∃ sh : String, jsGet r "salt" = .jstr sh ∧
        sh.data.length = 32 ∧ sh.data.all isHexDigit = true) ∧
      (∃ ph : String, jsGet r "passHash" = .jstr ph ∧
        ph.data.length = 128 ∧ ph.data.all isHexDigit = true) := by
  have hload : loadDb w = emptyDb := by
    unfold loadDb
    rw [hrf, hd]
  refine ⟨newRecord username email (bytesToHex w.saltBytes) (bytesToHex key)
    w.uuid w.now,
    mainRun_fresh env w username password email key hU hP hE hK hW hR hload,
    ?_, ?_, ?_, ?_, ?_, ?_, ?_, ?_, ?_⟩
  · simp +decide [newRecord, newRecordFields, jsGet, getF]
  · simp +decide [newRecord, newRecordFields, jsGet, getF]
  · simp +decide [newRecord, newRecordFields, jsGet, getF]
  · simp +decide [newRecord, newRecordFields, jsGet, getF]
  · simp +decide [newRecord, newRecordFields, jsGet, getF]
  · simp +decide [newRecord, newRecordFields, jsGet, getF]
  · simp +decide [newRecord, newRecordFields, jsGet, getF]
  · refine ⟨bytesToHex w.saltBytes,
      by simp +decide [newRecord, newRecordFields, jsGet, getF], ?_, ?_⟩
    · rw [bytesToHex]
      show (bytesToHexL w.saltBytes).length = 32
      rw [bytesToHexL_length, hs]
    · rw [bytesToHex]
      show (bytesToHexL w.saltBytes).all isHexDigit = true
      exact bytesToHexL_all_hex w.saltBytes
  · refine ⟨bytesToHex key,
      by simp +decide [newRecord, newRecordFields, jsGet, getF], ?_, ?_⟩
    · rw [bytesToHex]
      show (bytesToHexL key).length = 128
      rw [bytesToHexL_length, hk]
    · rw [bytesToHex]
      show (bytesToHexL key).all isHexDigit = true
      exact bytesToHexL_all_hex key

/-- Witness for C6: the theorem applied to the example credentials against
the empty store. -/
theorem c6_new_record_shape_witness :
    ∃ r, (mainRun envEx1 wEmpty).1 = .ok "root-ops"
        (.jobj [("users", .jarr [r])]) ∧
      jsGet r "username" = .jstr "root-ops" ∧
      jsGet r "role" = .jstr "admin" ∧
      jsGet r "disabled" = .jbool false ∧
      jsGet r "accessUntilMs" = .null ∧
      jsGet r "quota" = .jnum (-1) ∧
      jsGet r "unlocked" = .jarr [] ∧
      jsGet r "contentTokens" = .jarr [] ∧
      (∃ sh : String, jsGet r "salt" = .jstr sh ∧
        sh.data.length = 32 ∧ sh.data.all isHexDigit = true) ∧
      (∃ ph : String, jsGet r "passHash" = .jstr ph ∧
        ph.data.length = 128 ∧ ph.data.all isHexDigit = true) :=
  c6_new_record_shape envEx1 wEmpty "root-ops" "correcthorse1" none
    (List.replicate 64 1) (by decide) (by decide) rfl rfl rfl (by decide)
    (by decide) rfl rfl rfl

/-- Environment with valid username and password but a malformed email. -/
def envMail : EnvVars :=
  ⟨some "root-ops", none, some "correcthorse1", none, some "not-an-email"⟩

/-- C7: with a valid username and password but a non-empty malformed email,
the run exits with the usage message before any store step, leaving the
backing file untouched whatever the world contains. -/
theorem c7_invalid_email_aborts_before_write (env : EnvVars) (w : World)
    (username password : String)
    (hU : cleanUsername (envUser env) = some username)
    (hP : normalizePassword (envPass env) = some password)
    (hne : envEmail env ≠ "")
    (hbad : normalizeEmail (envEmail env) = none) :
    mainRun env w = (.usage, w.disk) := by
  have hne1 : ¬ envUser env = "" := by
    intro h
    rw [h, cleanUsername_empty_none] at hU
    cases hU
  have hne2 : ¬ envPass env = "" := by
    intro h
    rw [h, normalizePassword_empty_none] at hP
    cases hP
  have hE : emailResolved env = .error () := by
    unfold emailResolved
    rw [if_neg hne, hbad]
  simp only [mainRun, if_neg hne1, if_neg hne2, hU, hP, hE]

/-- Witness for C7: the theorem applied to the malformed-email environment
and a world whose backing file holds prior content. -/
theorem c7_invalid_email_aborts_before_write_witness :
    mainRun envMail wDup = (.usage, some "store") :=
  c7_invalid_email_aborts_before_write envMail wDup "root-ops"
    "correcthorse1" (by decide) (by decide) (by decide) (by decide)

/-- The local part of a normalized email candidate: everything before the
first `@`. -/
def emailLocalOf (e : List Char) : List Char :=
  e.takeWhile (fun x => x != '@')

/-- The domain part of a normalized email candidate: everything after the
first `@`. -/
def emailDomainOf (e : List Char) : List Char :=
  (e.dropWhile (fun x => x != '@')).drop 1

theorem idxOf?_spec (c : Char) (l : List Char) : ∀ i, idxOf? c l = some i →
    l.take i = l.takeWhile (fun x => x != c) ∧
    l.drop (i + 1) = (l.dropWhile (fun x => x != c)).drop 1 ∧
    c ∉ l.take i ∧
    l.drop i = c :: l.drop (i + 1) ∧ i < l.length := by
  induction l with
  | nil => intro i h; simp [idxOf?] at h
  | cons x xs ih =>
    intro i h
    by_cases hx : x = c
    · subst hx
      rw [idxOf?, if_pos rfl] at h
      injection h with h
      subst h
      refine ⟨?_, ?_, by simp, rfl, by simp⟩
      · simp [List.takeWhile]
      · simp [List.dropWhile]
    · rw [idxOf?, if_neg hx] at h
      cases hj : idxOf? c xs with
      | none => rw [hj] at h; cases h
      | some j =>
        rw [hj] at h
        injection h with h
        subst h
        obtain ⟨t1, t2, t3, t4, t5⟩ := ih j hj
        refine ⟨?_, ?_, ?_, ?_, by simpa using t5⟩
        · simp only [List.take_succ_cons, List.takeWhile]
          have hb : (x != c) = true := by simp [hx]
          rw [hb]
          simp [t1]
        · simp only [List.drop_succ_cons, List.dropWhile]
          have hb : (x != c) = true := by simp [hx]
          rw [hb]
          exact t2
        · simp only [List.take_succ_cons, List.mem_cons, not_or]
          exact ⟨fun hc => hx hc.symm, t3⟩
        · simpa using t4

theorem normalizeEmailCore_some (e l : List Char)
    (h : normalizeEmailCore e = some l) :
    l = e ∧
    e.count '@' = 1 ∧
    emailLocalOf e ≠ [] ∧
    emailDomainOf e ≠ [] ∧
    (emailDomainOf e).contains '.' = true ∧
    hasDotDot (emailDomainOf e) = false ∧
    (emailDomainOf e).head? ≠ some '.' ∧
    (emailDomainOf e).getLast? ≠ some '.' := by
  unfold normalizeEmailCore at h
  by_cases hemp : e = []
  · rw [if_pos hemp] at h; exact Option.noConfusion h
  rw [if_neg hemp] at h
  by_cases hlen : 254 < e.length
  · rw [if_pos hlen] at h; exact Option.noConfusion h
  rw [if_neg hlen] at h
  by_cases hws : e.any jsIsWs = true
  · rw [if_pos hws] at h; exact Option.noConfusion h
  rw [if_neg hws] at h
  by_cases hat0 : jsIndexOf '@' e ≤ 0
  · rw [if_pos hat0] at h; exact Option.noConfusion h
  rw [if_neg hat0] at h
  obtain ⟨at0, hidx, hpos⟩ : ∃ i, idxOf? '@' e = some i ∧ 0 < i := by
    cases hi : idxOf? '@' e with
    | none =>
      exfalso
      apply hat0
      unfold jsIndexOf
      rw [hi]
      show (-1 : Int) ≤ 0
      decide
    | some i =>
      refine ⟨i, rfl, ?_⟩
      by_contra hle
      apply hat0
      unfold jsIndexOf
      rw [hi]
      show (i : Int) ≤ 0
      omega
  have hjs : jsIndexOf '@' e = (at0 : Int) := by
    unfold jsIndexOf
    rw [hidx]
  rw [hjs] at h
  simp only [Int.toNat_ofNat] at h
  by_cases hatLast : (at0 : Int) = (e.length : Int) - 1
  · rw [if_pos hatLast] at h; exact Option.noConfusion h
  rw [if_neg hatLast] at h
  by_cases hlp64 : 64 < (e.take at0).length
  · rw [if_pos hlp64] at h; exact Option.noConfusion h
  rw [if_neg hlp64] at h
  by_cases hdom3' : (e.drop (at0 + 1)).length < 3
  · rw [if_pos hdom3'] at h; exact Option.noConfusion h
  rw [if_neg hdom3'] at h
  by_cases hdot : ¬ (e.drop (at0 + 1)).contains '.' = true
  · rw [if_pos hdot] at h; exact Option.noConfusion h
  rw [if_neg hdot] at h
  by_cases hlocal : ¬ (e.take at0).all isLocalChar = true
  · rw [if_pos hlocal] at h; exact Option.noConfusion h
  rw [if_neg hlocal] at h
  by_cases hdomchar : ¬ (e.drop (at0 + 1)).all isDomainChar = true
  · rw [if_pos hdomchar] at h; exact Option.noConfusion h
  rw [if_neg hdomchar] at h
  by_cases hends : (e.drop (at0 + 1)).head? = some '.' ∨
      (e.drop (at0 + 1)).getLast? = some '.'
  · rw [if_pos hends] at h; exact Option.noConfusion h
  rw [if_neg hends] at h
  by_cases hdd : hasDotDot (e.drop (at0 + 1)) = true
  · rw [if_pos hdd] at h; exact Option.noConfusion h
  rw [if_neg hdd] at h
  injection h with h
  have hdom3 : 3 ≤ (e.drop (at0 + 1)).length := by omega
  obtain ⟨htake, hdrop, hnotin, hsplit, hlt⟩ := idxOf?_spec '@' e at0 hidx
  push_neg at hends
  obtain ⟨hhead, hlast⟩ := hends
  have hdomchar' : (List.all (e.drop (at0 + 1)) isDomainChar) = true := by
    revert hdomchar
    cases List.all (e.drop (at0 + 1)) isDomainChar <;> simp
  have hdot' : (List.contains (e.drop (at0 + 1)) '.') = true := by
    revert hdot
    cases List.contains (e.drop (at0 + 1)) '.' <;> simp
  have hdd' : hasDotDot (e.drop (at0 + 1)) = false := by
    revert hdd
    cases hasDotDot (e.drop (at0 + 1)) <;> simp
  have hdomEq : emailDomainOf e = e.drop (at0 + 1) := hdrop.symm
  have hlocEq : emailLocalOf e = e.take at0 := htake.symm
  refine ⟨h.symm, ?_, ?_, ?_, ?_, ?_, ?_, ?_⟩
  · have hdecomp : e = e.take at0 ++ '@' :: e.drop (at0 + 1) := by
      conv_lhs => rw [← List.take_append_drop at0 e]
      rw [hsplit]
    have hc1 : List.count '@' (e.take at0) = 0 :=
      List.count_eq_zero.mpr hnotin
    have hc2 : List.count '@' (e.drop (at0 + 1)) = 0 := by
      apply List.count_eq_zero.mpr
      intro hmem
      have := List.all_eq_true.mp hdomchar' '@' hmem
      exact absurd this (by decide)
    conv_lhs => rw [hdecomp]
    rw [List.count_append, List.count_cons, hc1, hc2]
    simp
  · rw [hlocEq]
    intro hnil
    have hlen0 : (e.take at0).length = 0 := by
      rw [hnil]; rfl
    rw [List.length_take] at hlen0
    have hat0' : at0 ≠ 0 := by omega
    omega
  · rw [hdomEq]
    intro hnil
    rw [hnil] at hdom3
    simp at hdom3
  · rw [hdomEq]; exact hdot'
  · rw [hdomEq]; exact hdd'
  · rw [hdomEq]; exact hhead
  · rw [hdomEq]; exact hlast

theorem cleanUsernameL_some (raw l : List Char)
    (h : cleanUsernameL raw = some l) : l = jsTrimL raw := by
  unfold cleanUsernameL at h
  by_cases h1 : (jsTrimL raw).length < 3 ∨ 32 < (jsTrimL raw).length
  · rw [if_pos h1] at h
    exact Option.noConfusion h
  · rw [if_neg h1] at h
    by_cases h2 : ¬ (jsTrimL raw ≠ [] ∧ (jsTrimL raw).all isUserChar = true)
    · rw [if_pos h2] at h
      exact Option.noConfusion h
    · rw [if_neg h2] at h
      injection h with h
      exact h.symm

/-- C8: after trimming, username validation accepts exactly the strings
whose trimmed length lies in [3,32] and whose characters all match
`[A-Za-z0-9_.-]`; the accepted value is the trimmed input itself. -/
theorem c8_username_validation (s : String) :
    ((cleanUsername s).isSome = true ↔
      (3 ≤ (jsTrimL s.data).length ∧ (jsTrimL s.data).length ≤ 32 ∧
        (jsTrimL s.data).all isUserChar = true)) ∧
    (∀ u, cleanUsername s = some u → u = String.mk (jsTrimL s.data)) := by
  constructor
  · unfold cleanUsername cleanUsernameL
    by_cases h1 : (jsTrimL s.data).length < 3 ∨ 32 < (jsTrimL s.data).length
    · rw [if_pos h1]
      simp only [Option.map_none', Option.isSome_none, Bool.false_eq_true,
        false_iff, not_and]
      intro h3 h32
      omega
    · rw [if_neg h1]
      push_neg at h1
      obtain ⟨h3, h32⟩ := h1
      by_cases h2 : ¬ (jsTrimL s.data ≠ [] ∧ (jsTrimL s.data).all isUserChar = true)
      · rw [if_pos h2]
        simp only [Option.map_none', Option.isSome_none, Bool.false_eq_true,
          false_iff, not_and]
        intro h3' h32' hall
        apply h2
        refine ⟨?_, hall⟩
        intro hnil
        rw [hnil] at h3'
        simp at h3'
      · rw [if_neg h2]
        rw [not_not] at h2
        simp only [Option.map_some', Option.isSome_some, true_iff]
        exact ⟨by omega, by omega, h2.2⟩
  · intro u hu
    unfold cleanUsername at hu
    cases hL : cleanUsernameL s.data with
    | none => rw [hL] at hu; exact Option.noConfusion hu
    | some t =>
      rw [hL] at hu
      injection hu with hu
      rw [← hu, cleanUsernameL_some s.data t hL]

/-- Witness for C8: the characterization applied to the example username
and to a too-short username. -/
theorem c8_username_validation_witness :
    (cleanUsername "root-ops").isSome = true ∧
    (cleanUsername "  ab  ").isSome = false :=
  ⟨(c8_username_validation "root-ops").1.mpr (by decide),
   by
    have := (c8_username_validation "  ab  ").1
    revert this
    cases hv : (cleanUsername "  ab  ").isSome
    · intro _; rfl
    · intro hiff
      have := hiff.mp rfl
      exact absurd this (by decide)⟩

/-- C9: a normalized email candidate is rejected whenever it does not have
exactly one `@` with non-empty content on both sides, or its domain lacks a
dot, contains consecutive dots, or starts or ends with a dot; every accepted
address is the trimmed, lowercased input. -/
theorem c9_email_validation (s : String) :
    (((jsToLowerL (jsTrimL s.data)).count '@' ≠ 1 ∨
      emailLocalOf (jsToLowerL (jsTrimL s.data)) = [] ∨
      emailDomainOf (jsToLowerL (jsTrimL s.data)) = [] ∨
      (emailDomainOf (jsToLowerL (jsTrimL s.data))).contains '.' = false ∨
      hasDotDot (emailDomainOf (jsToLowerL (jsTrimL s.data))) = true ∨
      (emailDomainOf (jsToLowerL (jsTrimL s.data))).head? = some '.' ∨
      (emailDomainOf (jsToLowerL (jsTrimL s.data))).getLast? = some '.') →
      normalizeEmail s = none) ∧
    (∀ v, normalizeEmail s = some v →
      v = String.mk (jsToLowerL (jsTrimL s.data))) := by
  constructor
  · intro hbad
    cases hcase : normalizeEmail s with
    | none => rfl
    | some v =>
      exfalso
      unfold normalizeEmail normalizeEmailL at hcase
      cases hL : normalizeEmailCore (jsToLowerL (jsTrimL s.data)) with
      | none => rw [hL] at hcase; exact Option.noConfusion hcase
      | some l =>
        obtain ⟨-, hcount, hlp, hdom, hdot, hdd, hhead, hlast⟩ :=
          normalizeEmailCore_some _ _ hL
        rcases hbad with hb|hb|hb|hb|hb|hb|hb
        · exact hb hcount
        · exact hlp hb
        · exact hdom hb
        · rw [hdot] at hb; exact Bool.noConfusion hb
        · rw [hdd] at hb; exact Bool.noConfusion hb
        · exact hhead hb
        · exact hlast hb
  · intro v hv
    unfold normalizeEmail normalizeEmailL at hv
    cases hL : normalizeEmailCore (jsToLowerL (jsTrimL s.data)) with
    | none => rw [hL] at hv; exact Option.noConfusion hv
    | some l =>
      rw [hL] at hv
      injection hv with hv
      obtain ⟨hl, -, -, -, -, -, -, -⟩ := normalizeEmailCore_some _ _ hL
      rw [← hv, hl]

/-- Witness for C9: the rejection direction applied to an address without
an `@`, and the acceptance direction applied to a well-formed mixed-case
address. -/
theorem c9_email_validation_witness :
    normalizeEmail "not-an-email" = none ∧
    normalizeEmail " A.B@Ex.Com " = some "a.b@ex.com" :=
  ⟨(c9_email_validation "not-an-email").1 (Or.inl (by decide)),
   by
    cases hv : normalizeEmail " A.B@Ex.Com " with
    | none => exact absurd hv (by decide)
    | some v =>
      have := (c9_email_validation " A.B@Ex.Com ").2 v hv
      rw [this]
      rfl⟩

/-- C10: the update path preserves the matched record's `id` and every field
other than the eleven keys it may write (`username`, `email`, `role`,
`salt`, `passHash`, `quota`, `unlocked`, `contentTokens`, `disabled`,
`accessUntilMs`, `createdAt`); and the upsert carries every top-level key of
the loaded store object other than `users` through unchanged into the
persisted output. -/
theorem c10_update_frame :
    (∀ fs u e s h now key, key ∉ updatedKeys →
      getF (updateRec fs u e s h now) key = getF fs key) ∧
    (∀ fs u e s h now,
      getF (updateRec fs u e s h now) "id" = getF fs "id") ∧
    (∀ db u e s h id now db2 key, upsertDb db u e s h id now = .ok db2 →
      key ≠ "users" → jsGet db2 key = jsGet db key) := by
  refine ⟨updateRec_frame, ?_, ?_⟩
  · intro fs u e s h now
    exact updateRec_frame fs u e s h now "id" (by decide)
  · intro db u e s h id now db2 key hok hkey
    unfold upsertDb at hok
    cases hup : upsertUsers (usersOf db) u e s h id now with
    | error err =>
      rw [hup] at hok
      exact Except.noConfusion hok
    | ok us =>
      rw [hup] at hok
      simp only [Except.map] at hok
      injection hok with hok
      rw [← hok]
      cases db with
      | jobj fs => simp [setUsers, jsGet, getF_setF_ne _ _ _ _ hkey]
      | null => rfl
      | undefVal => rfl
      | jbool b => rfl
      | jnum n => rfl
      | jstr str => rfl
      | jarr xs => rfl

/-- Witness for C10: a stray field and the `id` survive an update, and a
top-level key other than `users` survives the upsert. -/
theorem c10_update_frame_witness :
    getF (updateRec [("note", .jstr "keep"), ("id", .jstr "id-7"),
        ("username", .jstr "root-ops")] "root-ops" none "s" "h" "t")
      "note" = .jstr "keep" ∧
    getF (updateRec [("note", .jstr "keep"), ("id", .jstr "id-7"),
        ("username", .jstr "root-ops")] "root-ops" none "s" "h" "t")
      "id" = .jstr "id-7" := by
  constructor
  · rw [c10_update_frame.1 [("note", .jstr "keep"), ("id", .jstr "id-7"),
      ("username", .jstr "root-ops")] "root-ops" none "s" "h" "t" "note"
      (by decide)]
    rfl
  · rw [c10_update_frame.2.1 [("note", .jstr "keep"), ("id", .jstr "id-7"),
      ("username", .jstr "root-ops")] "root-ops" none "s" "h" "t"]
    rfl

end Bootstrap
